import Mathlib

/-!
Shallow embedding of the AHP calculator core (src/app.jsx) over exact
rationals.  JavaScript NaN is modelled by `Option.none`; all other numeric
values are `ℚ`.  Matrices are `List (List ℚ)`, so jagged and wrongly sized
inputs are representable exactly as in the source.
-/

namespace AHP

/-- Random Index values for the Consistency Ratio, for n = 1..10
(src/app.jsx line 6). -/
def RI : List ℚ :=
  [0, 0, 58/100, 90/100, 112/100, 124/100, 132/100, 141/100, 145/100, 149/100]

/-- Saaty 9-point scale of comparison values with their labels
(src/app.jsx lines 29-39). -/
def saatyScale : List (ℚ × String) :=
  [(1, "Equally Important"),
   (2, "Equally to Moderately Important"),
   (3, "Moderately Important"),
   (4, "Moderately to Strongly Important"),
   (5, "Strongly Important"),
   (6, "Strongly to Very Strongly Important"),
   (7, "Very Strongly Important"),
   (8, "Very Strongly to Extremely Important"),
   (9, "Extremely Important")]

/-- Matrix entry read matrix[i][j]; an out-of-bounds read (undefined in JS)
defaults to 0 here, but every use below is guarded to stay in bounds. -/
def entry (m : List (List ℚ)) (i j : ℕ) : ℚ := (m.getD i []).getD j 0

/-- Structural validity check of calculateAHP (src/app.jsx lines 74-84):
the matrix has exactly n rows and every row has length n. -/
def matrixValid (m : List (List ℚ)) (n : ℕ) : Bool :=
  m.length == n && m.all (fun row => row.length == n)

/-- Column sum of column j over the n rows (src/app.jsx lines 88-93). -/
def colSum (m : List (List ℚ)) (n j : ℕ) : ℚ :=
  ((List.range n).map (fun i => entry m i j)).sum

/-- Normalized matrix entry (src/app.jsx lines 95-104): entries of a
zero-sum column are replaced by 1/n instead of dividing by zero. -/
def normEntry (m : List (List ℚ)) (n i j : ℕ) : ℚ :=
  if colSum m n j = 0 then 1 / (n : ℚ) else entry m i j / colSum m n j

/-- Priority weight of row i: the mean of row i of the normalized matrix
(src/app.jsx lines 107-114). -/
def weightAt (m : List (List ℚ)) (n i : ℕ) : ℚ :=
  (((List.range n).map (fun j => normEntry m n i j)).sum) / (n : ℚ)

/-- The full weight vector (src/app.jsx line 107). -/
def weightsOf (m : List (List ℚ)) (n : ℕ) : List ℚ :=
  (List.range n).map (fun i => weightAt m n i)

/-- Weighted-sum vector component: (matrix × weights)[i]
(src/app.jsx lines 117-122). -/
def weightedSumAt (m : List (List ℚ)) (n i : ℕ) : ℚ :=
  ((List.range n).map (fun j => entry m i j * weightAt m n j)).sum

/-- Lambda max estimate (src/app.jsx lines 124-130): terms with weight 0
are skipped, and the final average still divides by n. -/
def lambdaMaxOf (m : List (List ℚ)) (n : ℕ) : ℚ :=
  (((List.range n).map (fun i =>
    if weightAt m n i = 0 then 0 else weightedSumAt m n i / weightAt m n i)).sum) / (n : ℚ)

/-- Consistency Index (src/app.jsx line 133). -/
def ciOf (m : List (List ℚ)) (n : ℕ) : ℚ :=
  if 1 < n then (lambdaMaxOf m n - (n : ℚ)) / ((n : ℚ) - 1) else 0

/-- Consistency Ratio (src/app.jsx lines 136-137): RI[n-1] lookup; a
missing table entry (n > 10, undefined in JS) yields NaN, a zero table
entry yields CR = 0, otherwise CR = CI / RI[n-1]. -/
def crOf (m : List (List ℚ)) (n : ℕ) : Option ℚ :=
  match RI.get? (n - 1) with
  | none => none
  | some r => if r = 0 then some 0 else some (ciOf m n / r)

/-- Result record of calculateAHP; NaN components are `none`. -/
structure AHPResult where
  weights : List (Option ℚ)
  consistencyRatio : Option ℚ
  lambdaMax : Option ℚ
deriving DecidableEq, Repr

/-- The priority engine calculateAHP (src/app.jsx lines 69-140). -/
def calculateAHP (matrix : List (List ℚ)) (n : ℕ) : AHPResult :=
  if n = 0 then ⟨[], none, none⟩
  else if n = 1 then ⟨[some 1], some 0, some 1⟩
  else if matrixValid matrix n then
    ⟨(weightsOf matrix n).map some, crOf matrix n, some (lambdaMaxOf matrix n)⟩
  else ⟨List.replicate n none, none, none⟩

/-- Matrix initialized with all entries 1 (src/app.jsx lines 55-59). -/
def initializeMatrix (size : ℕ) : List (List ℚ) :=
  List.replicate size (List.replicate size 1)

/-- Matrix resize of the useEffect hook (src/app.jsx lines 145-163): a
fresh all-ones n×n matrix whose shared top-left block is copied from the
previous matrix, positions copied only where the previous value exists. -/
def resizeMatrix (prev : List (List ℚ)) (n : ℕ) : List (List ℚ) :=
  if n = 0 then []
  else
    (List.range n).map (fun i => (List.range n).map (fun j =>
      if i < min prev.length n ∧ j < min prev.length n ∧ j < (prev.getD i []).length
      then (prev.getD i []).getD j 1 else 1))

/-- Single entry update m[i][j] := v, a no-op out of bounds as List.set is
(JS would extend the array, but callers stay in bounds). -/
def setEntry (m : List (List ℚ)) (i j : ℕ) (v : ℚ) : List (List ℚ) :=
  m.set i ((m.getD i []).set j v)

/-- Pairwise-comparison update of handleCriteriaComparisonChange and
handleAlternativeComparisonChange (src/app.jsx lines 279-300): sets
entry (i,j) = value and entry (j,i) = 1/value. -/
def setComparison (m : List (List ℚ)) (i j : ℕ) (v : ℚ) : List (List ℚ) :=
  setEntry (setEntry m i j v) j i (1 / v)

/-- Item removal of removeCriterion and removeAlternative
(src/app.jsx lines 244-247, 269-271): filter by name. -/
def removeItem (items : List String) (x : String) : List String :=
  items.filter (fun y => y != x)

/-- Deletion of row k and column k, the operation the spec ascribes to
removing an item; written from the spec for comparison with the source's
resize-based rebuild. -/
def deleteRowCol (m : List (List ℚ)) (k : ℕ) : List (List ℚ) :=
  (m.eraseIdx k).map (fun row => row.eraseIdx k)

/-- The comparison-matrix invariant of the spec data model: valid n×n
shape, unit diagonal, positive entries, reciprocal symmetry. -/
def isComparisonMatrix (m : List (List ℚ)) (n : ℕ) : Prop :=
  matrixValid m n = true ∧
  (∀ i < n, entry m i i = 1) ∧
  (∀ i < n, ∀ j < n, 0 < entry m i j) ∧
  (∀ i < n, ∀ j < n, i ≠ j → entry m i j * entry m j i = 1)

/-- JavaScript comparison a > t where a may be NaN: NaN > t is false. -/
def jsGt (a : Option ℚ) (t : ℚ) : Bool :=
  match a with
  | some x => decide (t < x)
  | none => false

/-- Two-decimal rounding, modelling toFixed(2) in the modal messages. -/
def roundTo2 (q : ℚ) : ℚ := ((round (q * 100) : ℤ) : ℚ) / 100

/-- NaN-propagating multiplication on JS numbers. -/
def optMul : Option ℚ → Option ℚ → Option ℚ
  | some a, some b => some (a * b)
  | _, _ => none

/-- NaN-propagating addition on JS numbers. -/
def optAdd : Option ℚ → Option ℚ → Option ℚ
  | some a, some b => some (a + b)
  | _, _ => none

/-- Outcome of one press of Calculate Results: either a single surfaced
failure message (modelled structurally) or the ranked results. -/
inductive OverallOutcome where
  | emptyCriteria
  | emptyAlternatives
  | inconsistentCriteria (crRounded : ℚ)
  | missingComparisons (criterion : String)
  | inconsistentAlternative (criterion : String) (crRounded : ℚ)
  | ranked (results : List (String × Option ℚ))
deriving DecidableEq, Repr

/-- The application state consumed by calculateOverallAHP; the
per-criterion comparison object is an association list keyed by name. -/
structure AppState where
  criteria : List String
  alternatives : List String
  criteriaComparisons : List (List ℚ)
  alternativeComparisons : List (String × List (List ℚ))
deriving DecidableEq, Repr

/-- Synthesis of final scores (src/app.jsx lines 348-354): for each
alternative, sum over criteria of its weight under that criterion times
the criterion weight, with NaN propagation and out-of-bounds reads as
undefined (none). -/
def synthScores (alts crits : List String) (criteriaWeights : List (Option ℚ))
    (altW : List (String × List (Option ℚ))) : List (String × Option ℚ) :=
  alts.enum.map (fun ka =>
    (ka.2, crits.enum.foldl (fun acc cc =>
      optAdd acc (optMul (((altW.lookup cc.2).getD []).getD ka.1 none)
                         (criteriaWeights.getD cc.1 none))) (some 0)))

/-- Strict numeric comparison of scores; NaN compares false either way. -/
def scoreGt (a b : Option ℚ) : Bool :=
  match a, b with
  | some x, some y => decide (y < x)
  | _, _ => false

/-- Stable descending insertion: x is placed before the first element it
strictly beats, matching the sort comparator (b.score - a.score). -/
def insertDesc (x : String × Option ℚ) : List (String × Option ℚ) → List (String × Option ℚ)
  | [] => [x]
  | y :: ys => if scoreGt x.2 y.2 then x :: y :: ys else y :: insertDesc x ys

/-- Stable descending sort by score (src/app.jsx line 357). -/
def sortDesc (l : List (String × Option ℚ)) : List (String × Option ℚ) :=
  l.foldl (fun acc x => insertDesc x acc) []

/-- Per-criterion loop of calculateOverallAHP (src/app.jsx lines 327-345):
missing or empty matrix fails with MissingComparisons, a CR above the
threshold fails with the criterion name and rounded CR, otherwise the
weights are collected in criteria order. -/
def altLoop (s : AppState) : List String → Except OverallOutcome (List (String × List (Option ℚ)))
  | [] => Except.ok []
  | c :: rest =>
    match s.alternativeComparisons.lookup c with
    | none => Except.error (OverallOutcome.missingComparisons c)
    | some mtx =>
      if mtx.length = 0 then Except.error (OverallOutcome.missingComparisons c)
      else
        let r := calculateAHP mtx s.alternatives.length
        if jsGt r.consistencyRatio (1/10) then
          Except.error (OverallOutcome.inconsistentAlternative c
            (roundTo2 ((r.consistencyRatio).getD 0)))
        else
          match altLoop s rest with
          | Except.error e => Except.error e
          | Except.ok ws => Except.ok ((c, r.weights) :: ws)

/-- The full pipeline calculateOverallAHP (src/app.jsx lines 305-360). -/
def calculateOverallAHP (s : AppState) : OverallOutcome :=
  if s.criteria.length = 0 then OverallOutcome.emptyCriteria
  else if s.alternatives.length = 0 then OverallOutcome.emptyAlternatives
  else
    let res := calculateAHP s.criteriaComparisons s.criteria.length
    if jsGt res.consistencyRatio (1/10) then
      OverallOutcome.inconsistentCriteria (roundTo2 ((res.consistencyRatio).getD 0))
    else
      match altLoop s s.criteria with
      | Except.error e => e
      | Except.ok altW =>
        OverallOutcome.ranked (sortDesc (synthScores s.alternatives s.criteria res.weights altW))

/-- Consistency ratio of the alternatives matrix stored for criterion c. -/
def altCR (s : AppState) (c : String) : Option ℚ :=
  (calculateAHP ((s.alternativeComparisons.lookup c).getD []) s.alternatives.length).consistencyRatio

/-- Weight vector of the alternatives matrix stored for criterion c. -/
def altWeightsOf (s : AppState) (c : String) : List (Option ℚ) :=
  (calculateAHP ((s.alternativeComparisons.lookup c).getD []) s.alternatives.length).weights

/-- Rejection condition of the spec's Consistency Gate: CR > 0.10; an
undefined CR is not greater than the threshold. -/
def specRejects (cr : Option ℚ) : Bool :=
  match cr with
  | some q => decide ((1 : ℚ) / 10 < q)
  | none => false

/-- The consistency checks in the spec's item-set order: the criteria
matrix first, then each criterion's alternatives matrix in criteria
order, each paired with the name it is reported under. -/
def gateChecks (s : AppState) : List (Option String × Option ℚ) :=
  (none, (calculateAHP s.criteriaComparisons s.criteria.length).consistencyRatio)
  :: s.criteria.map (fun c => (some c, altCR s c))

/-- The Consistency Gate as the spec words it: halt at the first check
whose CR exceeds 0.10, reporting only that set's name and its CR rounded
to two decimals; if every check is accepted, synthesis proceeds and the
ranked results are produced. -/
def consistencyGateSpec (s : AppState) : OverallOutcome :=
  match (gateChecks s).find? (fun p => specRejects p.2) with
  | some (none, cr) => OverallOutcome.inconsistentCriteria (roundTo2 (cr.getD 0))
  | some (some c, cr) => OverallOutcome.inconsistentAlternative c (roundTo2 (cr.getD 0))
  | none =>
    OverallOutcome.ranked (sortDesc (synthScores s.alternatives s.criteria
      (calculateAHP s.criteriaComparisons s.criteria.length).weights
      (s.criteria.map (fun c => (c, altWeightsOf s c)))))

/-- Division that refuses a zero divisor, used to certify that every
division calculateAHP performs has a nonzero divisor. -/
def safeDiv (a b : ℚ) : Option ℚ := if b = 0 then none else some (a / b)

/-- Checked variant of the matrix normalization step. -/
def normEntryChecked (m : List (List ℚ)) (n i j : ℕ) : Option ℚ :=
  if colSum m n j = 0 then safeDiv 1 (n : ℚ) else safeDiv (entry m i j) (colSum m n j)

/-- calculateAHP with every division routed through safeDiv: it returns
none as soon as any division in the algorithm would divide by zero. -/
def calculateAHPChecked (matrix : List (List ℚ)) (n : ℕ) : Option AHPResult :=
  if n = 0 then some ⟨[], none, none⟩
  else if n = 1 then some ⟨[some 1], some 0, some 1⟩
  else if matrixValid matrix n then
    ((List.range n).mapM (fun i =>
        ((List.range n).mapM (fun j => normEntryChecked matrix n i j)).bind
          (fun row => safeDiv row.sum (n : ℚ)))).bind
      (fun ws =>
        ((List.range n).mapM (fun i =>
            if ws.getD i 0 = 0 then some 0
            else safeDiv (((List.range n).map (fun j => entry matrix i j * ws.getD j 0)).sum)
                   (ws.getD i 0))).bind
          (fun terms =>
            (safeDiv terms.sum (n : ℚ)).bind
              (fun lm =>
                (if 1 < n then safeDiv (lm - (n : ℚ)) ((n : ℚ) - 1) else some 0).bind
                  (fun _ =>
                    (match RI.get? (n - 1) with
                      | none => some none
                      | some r => if r = 0 then some (some 0)
                                  else (safeDiv (ciOf matrix n) r).map some).bind
                      (fun cr => some ⟨ws.map some, cr, some lm⟩)))))
  else some ⟨List.replicate n none, none, none⟩

end AHP

namespace AHP

lemma sum_map_range (f : ℕ → ℚ) : ∀ n, ((List.range n).map f).sum = ∑ i in Finset.range n, f i
  | 0 => by simp
  | n + 1 => by
    rw [List.range_succ, List.map_append, List.sum_append, Finset.sum_range_succ,
      sum_map_range f n]
    simp

lemma getD_map_range {α : Type} (f : ℕ → α) (d : α) {n i : ℕ} (h : i < n) :
    ((List.range n).map f).getD i d = f i := by
  rw [List.getD_eq_getElem?_getD, List.getElem?_eq_getElem (by simpa using h)]
  simp

lemma getD_set {α : Type} (l : List α) (k i : ℕ) (x d : α) :
    (l.set k x).getD i d = if k = i ∧ k < l.length then x else l.getD i d := by
  rw [List.getD_eq_getElem?_getD, List.getD_eq_getElem?_getD, List.getElem?_set]
  by_cases h : k = i
  · subst h
    by_cases h2 : k < l.length
    · simp [h2]
    · simp [h2, List.getElem?_eq_none (Nat.le_of_not_lt h2)]
  · simp [h]

lemma matrixValid_iff {m : List (List ℚ)} {n : ℕ} :
    matrixValid m n = true ↔ m.length = n ∧ ∀ row ∈ m, row.length = n := by
  simp [matrixValid]

lemma entry_nonneg {m : List (List ℚ)} (h : ∀ row ∈ m, ∀ x ∈ row, 0 ≤ x) (i j : ℕ) :
    0 ≤ entry m i j := by
  unfold entry
  rw [List.getD_eq_getElem?_getD, List.getD_eq_getElem?_getD]
  cases hrow : m[i]? with
  | none => simp
  | some row =>
    simp only [Option.getD_some]
    cases hx : row[j]? with
    | none => simp
    | some x =>
      simp only [Option.getD_some]
      exact h row (List.getElem?_mem hrow) x (List.getElem?_mem hx)

lemma colSum_nonneg {m : List (List ℚ)} (h : ∀ row ∈ m, ∀ x ∈ row, 0 ≤ x) (n j : ℕ) :
    0 ≤ colSum m n j := by
  unfold colSum
  apply List.sum_nonneg
  intro x hx
  simp only [List.mem_map] at hx
  obtain ⟨i, _, rfl⟩ := hx
  exact entry_nonneg h i j

lemma normEntry_nonneg {m : List (List ℚ)} (h : ∀ row ∈ m, ∀ x ∈ row, 0 ≤ x) (n i j : ℕ) :
    0 ≤ normEntry m n i j := by
  unfold normEntry
  split
  · positivity
  · exact div_nonneg (entry_nonneg h i j) (colSum_nonneg h n j)

lemma sum_normEntry_col {m : List (List ℚ)} {n j : ℕ} (hn : n ≠ 0) :
    ∑ i in Finset.range n, normEntry m n i j = 1 := by
  unfold normEntry
  by_cases h : colSum m n j = 0
  · simp only [if_pos h]
    rw [Finset.sum_const, Finset.card_range, nsmul_eq_mul, mul_one_div,
      div_self (by exact_mod_cast hn : (n : ℚ) ≠ 0)]
  · simp only [if_neg h]
    rw [← Finset.sum_div,
      show ∑ i in Finset.range n, entry m i j = colSum m n j from by rw [colSum, sum_map_range],
      div_self h]

lemma weightsOf_sum {m : List (List ℚ)} {n : ℕ} (hn : n ≠ 0) : (weightsOf m n).sum = 1 := by
  unfold weightsOf weightAt
  rw [sum_map_range, ← Finset.sum_div]
  have hin : ∀ i, ((List.range n).map (fun j => normEntry m n i j)).sum
      = ∑ j in Finset.range n, normEntry m n i j := fun i => sum_map_range _ n
  simp only [hin]
  rw [Finset.sum_comm]
  simp only [sum_normEntry_col hn]
  rw [Finset.sum_const, Finset.card_range, nsmul_eq_mul, mul_one,
    div_self (by exact_mod_cast hn : (n : ℚ) ≠ 0)]

lemma getD_in_bounds {α : Type} {l : List α} {i : ℕ} (h : i < l.length) (d d' : α) :
    l.getD i d = l.getD i d' := by
  rw [List.getD_eq_getElem?_getD, List.getD_eq_getElem?_getD, List.getElem?_eq_getElem h]
  rfl

lemma entry_initializeMatrix {n i j : ℕ} (hi : i < n) (hj : j < n) :
    entry (initializeMatrix n) i j = 1 := by
  simp [entry, initializeMatrix, List.getElem?_replicate_of_lt, hi, hj]

lemma matrixValid_initializeMatrix (n : ℕ) : matrixValid (initializeMatrix n) n = true := by
  rw [matrixValid_iff]
  refine ⟨by simp [initializeMatrix], ?_⟩
  intro row hrow
  rw [initializeMatrix, List.mem_replicate] at hrow
  simp [hrow.2]

lemma isComparisonMatrix_initializeMatrix (n : ℕ) :
    isComparisonMatrix (initializeMatrix n) n := by
  refine ⟨matrixValid_initializeMatrix n, ?_, ?_, ?_⟩
  · intro i hi; rw [entry_initializeMatrix hi hi]
  · intro i hi j hj; rw [entry_initializeMatrix hi hj]; norm_num
  · intro i hi j hj _; rw [entry_initializeMatrix hi hj, entry_initializeMatrix hj hi]; norm_num

lemma entry_resizeMatrix {prev : List (List ℚ)} {n i j : ℕ} (hi : i < n) (hj : j < n) :
    entry (resizeMatrix prev n) i j =
      if i < min prev.length n ∧ j < min prev.length n ∧ j < (prev.getD i []).length
      then entry prev i j else 1 := by
  have hn : n ≠ 0 := by omega
  unfold resizeMatrix entry
  rw [if_neg hn, getD_map_range _ _ hi, getD_map_range _ _ hj]
  split
  · next h => exact getD_in_bounds h.2.2 1 0
  · rfl

lemma matrixValid_resizeMatrix (prev : List (List ℚ)) (n : ℕ) :
    matrixValid (resizeMatrix prev n) n = true := by
  rw [matrixValid_iff]
  unfold resizeMatrix
  by_cases hn : n = 0
  · simp [hn]
  · rw [if_neg hn]
    constructor
    · simp
    · intro row hrow
      simp only [List.mem_map] at hrow
      obtain ⟨i, _, rfl⟩ := hrow
      simp

lemma isComparisonMatrix_resizeMatrix {m : List (List ℚ)} {p : ℕ} (n : ℕ)
    (h : isComparisonMatrix m p) : isComparisonMatrix (resizeMatrix m n) n := by
  obtain ⟨hv, hdiag, hpos, hrec⟩ := h
  obtain ⟨hlen, hrows⟩ := matrixValid_iff.mp hv
  have hcond : ∀ i j : ℕ, i < n → j < n →
      ((i < min m.length n ∧ j < min m.length n ∧ j < (m.getD i []).length) ↔
        (i < p ∧ j < p)) := by
    intro i j hi hj
    constructor
    · intro hc
      rw [hlen] at hc
      exact ⟨by omega, by omega⟩
    · intro hc
      have hip : i < m.length := by omega
      have hrowlen : (m.getD i []).length = p := by
        rw [List.getD_eq_getElem?_getD, List.getElem?_eq_getElem hip, Option.getD_some]
        exact hrows _ (List.getElem_mem hip)
      refine ⟨by omega, by omega, by omega⟩
  refine ⟨matrixValid_resizeMatrix m n, ?_, ?_, ?_⟩
  · intro i hi
    rw [entry_resizeMatrix hi hi]
    split
    · next hc => exact hdiag i ((hcond i i hi hi).mp hc).1
    · rfl
  · intro i hi j hj
    rw [entry_resizeMatrix hi hj]
    split
    · next hc =>
        obtain ⟨h1, h2⟩ := (hcond i j hi hj).mp hc
        exact hpos i h1 j h2
    · norm_num
  · intro i hi j hj hij
    rw [entry_resizeMatrix hi hj, entry_resizeMatrix hj hi]
    by_cases hc : i < p ∧ j < p
    · have hc1 := (hcond i j hi hj).mpr hc
      have hc2 := (hcond j i hj hi).mpr (And.intro hc.2 hc.1)
      rw [if_pos hc1, if_pos hc2]
      exact hrec i hc.1 j hc.2 hij
    · have hc1 : ¬(i < min m.length n ∧ j < min m.length n ∧ j < (m.getD i []).length) :=
        fun hcc => hc ((hcond i j hi hj).mp hcc)
      have hc2 : ¬(j < min m.length n ∧ i < min m.length n ∧ i < (m.getD j []).length) :=
        fun hcc => hc (And.symm ((hcond j i hj hi).mp hcc))
      rw [if_neg hc1, if_neg hc2]
      norm_num

lemma entry_setEntry (m : List (List ℚ)) (a b i j : ℕ) (v : ℚ) :
    entry (setEntry m a b v) i j =
      if a = i ∧ a < m.length then
        (if b = j ∧ b < (m.getD a []).length then v else entry m a j)
      else entry m i j := by
  unfold setEntry entry
  by_cases h : a = i ∧ a < m.length
  · rw [if_pos h, getD_set, if_pos h, getD_set]
  · rw [if_neg h, getD_set, if_neg h]

lemma matrixValid_setEntry {m : List (List ℚ)} {n : ℕ} (hv : matrixValid m n = true)
    (i j : ℕ) (v : ℚ) : matrixValid (setEntry m i j v) n = true := by
  obtain ⟨hlen, hrows⟩ := matrixValid_iff.mp hv
  by_cases hi : i < m.length
  · rw [matrixValid_iff]
    refine ⟨by simp [setEntry, hlen], ?_⟩
    intro row hrow
    rcases List.mem_or_eq_of_mem_set hrow with h | h
    · exact hrows _ h
    · subst h
      rw [List.length_set, List.getD_eq_getElem?_getD, List.getElem?_eq_getElem hi,
        Option.getD_some]
      exact hrows _ (List.getElem_mem hi)
  · unfold setEntry
    rw [List.set_eq_of_length_le (by omega)]
    exact hv

lemma rowlen_of_valid {m : List (List ℚ)} {n : ℕ} (hv : matrixValid m n = true)
    {k : ℕ} (hk : k < n) : (m.getD k []).length = n := by
  obtain ⟨hlen, hrows⟩ := matrixValid_iff.mp hv
  have hkm : k < m.length := by omega
  rw [List.getD_eq_getElem?_getD, List.getElem?_eq_getElem hkm, Option.getD_some]
  exact hrows _ (List.getElem_mem hkm)

lemma entry_setComparison {m : List (List ℚ)} {n : ℕ} (hv : matrixValid m n = true)
    {i j : ℕ} (hi : i < n) (hj : j < n) (hij : i ≠ j) (v : ℚ) (a b : ℕ) :
    entry (setComparison m i j v) a b =
      if a = j ∧ b = i then 1 / v else if a = i ∧ b = j then v else entry m a b := by
  have hlen := (matrixValid_iff.mp hv).1
  have hlen1 : (setEntry m i j v).length = m.length := by simp [setEntry]
  have hrow1 : (setEntry m i j v).getD j [] = m.getD j [] := by
    unfold setEntry
    rw [getD_set, if_neg]
    intro hc
    exact hij hc.1
  unfold setComparison
  rw [entry_setEntry, entry_setEntry, entry_setEntry]
  rw [hlen1, hlen, hrow1, rowlen_of_valid hv hj, rowlen_of_valid hv hi]
  split_ifs <;> first | rfl | omega | simp_all

lemma isComparisonMatrix_setComparison {m : List (List ℚ)} {n : ℕ}
    (h : isComparisonMatrix m n) {i j : ℕ} (hij : i < j) (hj : j < n)
    {v : ℚ} (hv : v ∈ saatyScale.map Prod.fst) :
    isComparisonMatrix (setComparison m i j v) n := by
  obtain ⟨hval, hdiag, hpos, hrec⟩ := h
  have hi : i < n := by omega
  have hne : i ≠ j := by omega
  have hvpos : 0 < v := by
    simp only [saatyScale, List.map_cons, List.map_nil, List.mem_cons, List.not_mem_nil,
      or_false] at hv
    rcases hv with rfl | rfl | rfl | rfl | rfl | rfl | rfl | rfl | rfl <;> norm_num
  have hch := entry_setComparison hval hi hj hne v
  refine ⟨?_, ?_, ?_, ?_⟩
  · unfold setComparison
    exact matrixValid_setEntry (matrixValid_setEntry hval i j v) j i (1 / v)
  · intro a ha
    rw [hch a a, if_neg (by omega), if_neg (by omega)]
    exact hdiag a ha
  · intro a ha b hb
    rw [hch a b]
    split_ifs
    · positivity
    · exact hvpos
    · exact hpos a ha b hb
  · intro a ha b hb hab
    rw [hch a b, hch b a]
    by_cases h1 : a = j ∧ b = i
    · rw [if_pos h1, if_neg (by omega), if_pos ⟨h1.2, h1.1⟩]
      exact one_div_mul_cancel (ne_of_gt hvpos)
    · by_cases h2 : a = i ∧ b = j
      · rw [if_neg h1, if_pos h2, if_pos ⟨h2.2, h2.1⟩]
        exact mul_one_div_cancel (ne_of_gt hvpos)
      · rw [if_neg h1, if_neg h2, if_neg (by omega), if_neg (by omega)]
        exact hrec a ha b hb hab

lemma resize_shrink_eq_deleteLast {m : List (List ℚ)} {n : ℕ}
    (hv : matrixValid m n = true) (hn : 1 ≤ n) :
    resizeMatrix m (n - 1) = deleteRowCol m (n - 1) := by
  obtain ⟨hlen, hrows⟩ := matrixValid_iff.mp hv
  by_cases h1 : n = 1
  · subst h1
    have hnil : m.eraseIdx 0 = [] := by
      apply List.eq_nil_of_length_eq_zero
      rw [List.length_eraseIdx_of_lt (by omega)]
      omega
    simp [resizeMatrix, deleteRowCol, hnil]
  · have hne : n - 1 ≠ 0 := by omega
    have hlen1 : (m.eraseIdx (n - 1)).length = n - 1 := by
      rw [List.length_eraseIdx_of_lt (by omega), hlen]
    apply List.ext_getElem?
    intro k
    rw [resizeMatrix, if_neg hne, deleteRowCol, List.getElem?_map, List.getElem?_map]
    by_cases hk : k < n - 1
    · rw [List.getElem?_range hk]
      have hkm : k < m.length := by omega
      rw [List.getElem?_eraseIdx_of_lt _ _ _ hk, List.getElem?_eq_getElem hkm]
      simp only [Option.map_some']
      congr 1
      have hrowk : m.getD k [] = m[k] := by
        rw [List.getD_eq_getElem?_getD, List.getElem?_eq_getElem hkm, Option.getD_some]
      have hrowklen : (m[k]).length = n := hrows _ (List.getElem_mem hkm)
      apply List.ext_getElem?
      intro j
      rw [List.getElem?_map]
      by_cases hj : j < n - 1
      · rw [List.getElem?_range hj]
        have hjr : j < (m[k]).length := by omega
        rw [List.getElem?_eraseIdx_of_lt _ _ _ hj, List.getElem?_eq_getElem hjr]
        simp only [Option.map_some']
        congr 1
        rw [if_pos]
        · rw [hrowk, List.getD_eq_getElem?_getD, List.getElem?_eq_getElem hjr, Option.getD_some]
        · rw [hrowk, hrowklen, hlen]
          refine ⟨by omega, by omega, by omega⟩
      · rw [List.getElem?_eq_none (by simp; omega), List.getElem?_eq_none
          (by rw [List.length_eraseIdx_of_lt (by omega)]; omega)]
        simp
    · rw [List.getElem?_eq_none (by simp; omega), List.getElem?_eq_none (by rw [hlen1]; omega)]
      simp

end AHP

namespace AHP

lemma mapM_option_of_some {α β : Type} (g : α → Option β) (f : α → β) :
    ∀ l : List α, (∀ a ∈ l, g a = some (f a)) → l.mapM g = some (l.map f)
  | [], _ => rfl
  | a :: l, h => by
    rw [List.mapM_cons, h a (List.mem_cons_self a l),
      mapM_option_of_some g f l (fun x hx => h x (List.mem_cons_of_mem a hx))]
    rfl

lemma normEntryChecked_eq {m : List (List ℚ)} {n : ℕ} (hn : n ≠ 0) (i j : ℕ) :
    normEntryChecked m n i j = some (normEntry m n i j) := by
  unfold normEntryChecked normEntry safeDiv
  by_cases h : colSum m n j = 0
  · rw [if_pos h, if_pos h, if_neg (by exact_mod_cast hn : (n : ℚ) ≠ 0)]
  · rw [if_neg h, if_neg h, if_neg h]

lemma jsGt_eq_specRejects (cr : Option ℚ) : jsGt cr (1 / 10) = specRejects cr := by
  cases cr <;> rfl

lemma altLoop_eq (s : AppState) :
    ∀ l : List String,
      (∀ c ∈ l, ∃ mtx, s.alternativeComparisons.lookup c = some mtx ∧ mtx ≠ []) →
      (∀ c, l.find? (fun c => specRejects (altCR s c)) = some c →
        altLoop s l = Except.error
          (OverallOutcome.inconsistentAlternative c (roundTo2 ((altCR s c).getD 0)))) ∧
      (l.find? (fun c => specRejects (altCR s c)) = none →
        altLoop s l = Except.ok (l.map (fun c => (c, altWeightsOf s c)))) := by
  intro l
  induction l with
  | nil => exact fun _ => ⟨fun c hc => by simp at hc, fun _ => rfl⟩
  | cons c rest ih =>
    intro h
    obtain ⟨mtx, hlk, hne⟩ := h c (List.mem_cons_self c rest)
    have hmtx_len : ¬mtx.length = 0 := by simpa using hne
    have hcr : altCR s c = (calculateAHP mtx s.alternatives.length).consistencyRatio := by
      simp [altCR, hlk]
    have hwt : altWeightsOf s c = (calculateAHP mtx s.alternatives.length).weights := by
      simp [altWeightsOf, hlk]
    have hloop : altLoop s (c :: rest) =
        (if jsGt (calculateAHP mtx s.alternatives.length).consistencyRatio (1 / 10) then
          Except.error (OverallOutcome.inconsistentAlternative c
            (roundTo2 (((calculateAHP mtx s.alternatives.length).consistencyRatio).getD 0)))
        else
          match altLoop s rest with
          | Except.error e => Except.error e
          | Except.ok ws =>
            Except.ok ((c, (calculateAHP mtx s.alternatives.length).weights) :: ws)) := by
      simp only [altLoop, hlk]
      rw [if_neg hmtx_len]
    have ihr := ih (fun x hx => h x (List.mem_cons_of_mem c hx))
    by_cases hrej : specRejects (altCR s c) = true
    · have hfpos : List.find? (fun x => specRejects (altCR s x)) (c :: rest) = some c :=
        List.find?_cons_of_pos rest hrej
      constructor
      · intro c' hc'
        rw [hfpos] at hc'
        injection hc' with hc'
        subst hc'
        rw [hloop, if_pos (by rw [jsGt_eq_specRejects, ← hcr]; exact hrej), hcr]
      · intro hnone
        rw [hfpos] at hnone
        exact absurd hnone (by simp)
    · have hfneg : List.find? (fun x => specRejects (altCR s x)) (c :: rest) =
          List.find? (fun x => specRejects (altCR s x)) rest :=
        List.find?_cons_of_neg rest hrej
      constructor
      · intro c' hc'
        rw [hfneg] at hc'
        rw [hloop, if_neg (by rw [jsGt_eq_specRejects, ← hcr]; exact hrej)]
        rw [ihr.1 c' hc']
      · intro hnone
        rw [hfneg] at hnone
        rw [hloop, if_neg (by rw [jsGt_eq_specRejects, ← hcr]; exact hrej), ihr.2 hnone]
        rw [List.map_cons, hwt]

lemma calculateAHP_invalid {m : List (List ℚ)} {n : ℕ} (h2 : 2 ≤ n)
    (hbad : ¬matrixValid m n = true) :
    calculateAHP m n = ⟨List.replicate n none, none, none⟩ := by
  rw [calculateAHP, if_neg (by omega : ¬n = 0), if_neg (by omega : ¬n = 1), if_neg hbad]

lemma optMul_none_right (a : Option ℚ) : optMul a none = none := by
  cases a <;> rfl

lemma optAdd_none_left (b : Option ℚ) : optAdd none b = none := rfl

lemma foldl_optAdd_none {β : Type} (g : β → Option ℚ) :
    ∀ l : List β, l.foldl (fun acc b => optAdd acc (g b)) none = none
  | [] => rfl
  | b :: l => by
    rw [List.foldl_cons, optAdd_none_left, foldl_optAdd_none g l]

lemma getD_replicate_none {k i : ℕ} :
    (List.replicate k (none : Option ℚ)).getD i none = none := by
  rw [List.getD_eq_getElem?_getD, List.getElem?_replicate]
  split <;> rfl

lemma synthScores_score_none {alts crits : List String} {k : ℕ}
    (hcrits : crits ≠ []) (altW : List (String × List (Option ℚ))) :
    ∀ p ∈ synthScores alts crits (List.replicate k none) altW, p.2 = none := by
  intro p hp
  unfold synthScores at hp
  simp only [List.mem_map] at hp
  obtain ⟨ka, _, rfl⟩ := hp
  cases crits with
  | nil => exact absurd rfl hcrits
  | cons c0 cs =>
    show (List.enum (c0 :: cs)).foldl _ (some 0) = none
    rw [List.enum_cons, List.foldl_cons]
    have h1 : optAdd (some 0) (optMul (((altW.lookup (0, c0).2).getD []).getD ka.1 none)
        ((List.replicate k none).getD (0, c0).1 none)) = none := by
      rw [getD_replicate_none, optMul_none_right]
      rfl
    rw [h1]
    exact foldl_optAdd_none
      (fun cc => optMul (((altW.lookup cc.2).getD []).getD ka.1 none)
        ((List.replicate k none).getD cc.1 none)) (cs.enumFrom 1)

lemma length_insertDesc (x : String × Option ℚ) :
    ∀ l : List (String × Option ℚ), (insertDesc x l).length = l.length + 1
  | [] => rfl
  | y :: ys => by
    rw [insertDesc]
    split
    · simp
    · simp only [List.length_cons, length_insertDesc x ys]

lemma length_sortDesc_aux :
    ∀ (l acc : List (String × Option ℚ)),
      (l.foldl (fun a x => insertDesc x a) acc).length = acc.length + l.length
  | [], acc => by simp
  | x :: xs, acc => by
    rw [List.foldl_cons, length_sortDesc_aux xs, length_insertDesc]
    simp
    omega

lemma length_sortDesc (l : List (String × Option ℚ)) : (sortDesc l).length = l.length := by
  rw [sortDesc, length_sortDesc_aux]
  simp

lemma mem_insertDesc {p x : String × Option ℚ} :
    ∀ {l : List (String × Option ℚ)}, p ∈ insertDesc x l → p = x ∨ p ∈ l := by
  intro l
  induction l with
  | nil =>
    intro h
    rw [insertDesc] at h
    exact Or.inl (List.mem_singleton.mp h)
  | cons y ys ih =>
    intro h
    rw [insertDesc] at h
    split at h
    · rcases List.mem_cons.mp h with h | h
      · exact Or.inl h
      · exact Or.inr h
    · rcases List.mem_cons.mp h with h | h
      · exact Or.inr (by rw [h]; exact List.mem_cons_self y ys)
      · rcases ih h with h | h
        · exact Or.inl h
        · exact Or.inr (List.mem_cons_of_mem _ h)

lemma mem_sortDesc_aux :
    ∀ (l acc : List (String × Option ℚ)) (p : String × Option ℚ),
      p ∈ l.foldl (fun a x => insertDesc x a) acc → p ∈ acc ∨ p ∈ l
  | [], _, _, h => Or.inl h
  | x :: xs, acc, p, h => by
    rcases mem_sortDesc_aux xs (insertDesc x acc) p h with h | h
    · rcases mem_insertDesc h with h | h
      · exact Or.inr (by rw [h]; exact List.mem_cons_self x xs)
      · exact Or.inl h
    · exact Or.inr (List.mem_cons_of_mem _ h)

lemma mem_sortDesc {p : String × Option ℚ} {l : List (String × Option ℚ)}
    (h : p ∈ sortDesc l) : p ∈ l := by
  rcases mem_sortDesc_aux l [] p h with h | h
  · exact absurd h (List.not_mem_nil p)
  · exact h

lemma length_synthScores (alts crits : List String) (cw : List (Option ℚ))
    (altW : List (String × List (Option ℚ))) :
    (synthScores alts crits cw altW).length = alts.length := by
  simp [synthScores, List.enum, List.enumFrom_length]

end AHP

namespace AHP

lemma setComparison_init2 (v : ℚ) :
    setComparison (initializeMatrix 2) 0 1 v = [[1, v], [1/v, 1]] := by
  norm_num [setComparison, setEntry, initializeMatrix, List.replicate]

lemma calcAHP_13 : calculateAHP [[1, 3], [1/3, 1]] 2 =
    ⟨[some (3/4), some (1/4)], some 0, some 2⟩ := by
  norm_num [calculateAHP, matrixValid, weightsOf, weightAt, normEntry, colSum, entry,
    lambdaMaxOf, weightedSumAt, ciOf, crOf, RI, show List.range 2 = [0, 1] from rfl]

lemma calcAHP_12 : calculateAHP [[1, 2], [1/2, 1]] 2 =
    ⟨[some (2/3), some (1/3)], some 0, some 2⟩ := by
  norm_num [calculateAHP, matrixValid, weightsOf, weightAt, normEntry, colSum, entry,
    lambdaMaxOf, weightedSumAt, ciOf, crOf, RI, show List.range 2 = [0, 1] from rfl]

lemma calcAHP_half : calculateAHP [[1, 1/2], [2, 1]] 2 =
    ⟨[some (1/3), some (2/3)], some 0, some 2⟩ := by
  norm_num [calculateAHP, matrixValid, weightsOf, weightAt, normEntry, colSum, entry,
    lambdaMaxOf, weightedSumAt, ciOf, crOf, RI, show List.range 2 = [0, 1] from rfl]

lemma calcAHP_ones : calculateAHP [[1, 1], [1, 1]] 2 =
    ⟨[some (1/2), some (1/2)], some 0, some 2⟩ := by
  norm_num [calculateAHP, matrixValid, weightsOf, weightAt, normEntry, colSum, entry,
    lambdaMaxOf, weightedSumAt, ciOf, crOf, RI, show List.range 2 = [0, 1] from rfl]

/-- C1: for criteria [Cost, Quality] and alternatives [A, B] with Cost vs
Quality = 3, A vs B under Cost = 2 and A vs B under Quality = 1/2
(reciprocals filled in by setComparison), the pipeline yields criteria
weights [3/4, 1/4] with CR = 0 (approximately [0.75, 0.25]), alternative
weights [2/3, 1/3] under Cost and [1/3, 2/3] under Quality, synthesized
scores 7/12 ≈ 0.583 for A and 5/12 ≈ 0.417 for B, and the ranked output
[A, B] in that order. -/
theorem c1_end_to_end_pipeline :
    setComparison (initializeMatrix 2) 0 1 3 = [[1, 3], [1/3, 1]] ∧
    (calculateAHP [[1, 3], [1/3, 1]] 2).weights = [some (3/4), some (1/4)] ∧
    (calculateAHP [[1, 3], [1/3, 1]] 2).consistencyRatio = some 0 ∧
    (calculateAHP [[1, 2], [1/2, 1]] 2).weights = [some (2/3), some (1/3)] ∧
    (calculateAHP [[1, 1/2], [2, 1]] 2).weights = [some (1/3), some (2/3)] ∧
    calculateOverallAHP
      ⟨["Cost", "Quality"], ["A", "B"], [[1, 3], [1/3, 1]],
       [("Cost", [[1, 2], [1/2, 1]]), ("Quality", [[1, 1/2], [2, 1]])]⟩ =
    OverallOutcome.ranked [("A", some (7/12)), ("B", some (5/12))] := by
  have hq : ("Quality" == "Cost") = false := rfl
  refine ⟨by norm_num [setComparison_init2], by rw [calcAHP_13], by rw [calcAHP_13],
    by rw [calcAHP_12], by rw [calcAHP_half], ?_⟩
  have hl : altLoop
      ⟨["Cost", "Quality"], ["A", "B"], [[1, 3], [1/3, 1]],
       [("Cost", [[1, 2], [1/2, 1]]), ("Quality", [[1, 1/2], [2, 1]])]⟩ ["Cost", "Quality"] =
      Except.ok [("Cost", [some (2/3), some (1/3)]), ("Quality", [some (1/3), some (2/3)])] := by
    simp only [altLoop, List.lookup]
    norm_num [calcAHP_12, calcAHP_half, jsGt, hq]
  have hs : synthScores ["A", "B"] ["Cost", "Quality"]
      [some ((3:ℚ)/4), some (1/4)]
      [("Cost", [some (2/3), some (1/3)]), ("Quality", [some (1/3), some (2/3)])] =
      [("A", some (7/12)), ("B", some (5/12))] := by
    simp only [synthScores, List.enum, List.enumFrom, List.lookup, List.map, List.foldl]
    norm_num [optAdd, optMul, hq]
  have hsort : sortDesc [("A", some ((7:ℚ)/12)), ("B", some (5/12))] =
      [("A", some (7/12)), ("B", some (5/12))] := by
    norm_num [sortDesc, insertDesc, scoreGt]
  simp only [calculateOverallAHP]
  norm_num [calcAHP_13, hl, hs, hsort, jsGt]

/-- C2: for every n ≥ 1 and every n×n comparison matrix with nonnegative
entries (so in particular with positive entries, and also through the
zero-column fallback branch), the weight vector returned by calculateAHP
consists of plain numbers that sum to exactly 1, each ≥ 0. -/
theorem c2_weights_sum_one_and_nonneg (m : List (List ℚ)) (n : ℕ) (h1 : 1 ≤ n)
    (h2 : matrixValid m n = true) (h3 : ∀ row ∈ m, ∀ x ∈ row, 0 ≤ x) :
    ∃ ws : List ℚ, (calculateAHP m n).weights = ws.map some ∧ ws.sum = 1 ∧ ∀ w ∈ ws, 0 ≤ w := by
  have hn0 : n ≠ 0 := by omega
  unfold calculateAHP
  by_cases hn1 : n = 1
  · subst hn1
    exact ⟨[1], by simp, by simp, by simp⟩
  · rw [if_neg hn0, if_neg hn1, if_pos h2]
    refine ⟨weightsOf m n, rfl, weightsOf_sum hn0, ?_⟩
    intro w hw
    unfold weightsOf at hw
    simp only [List.mem_map] at hw
    obtain ⟨i, _, rfl⟩ := hw
    unfold weightAt
    apply div_nonneg _ (Nat.cast_nonneg n)
    apply List.sum_nonneg
    intro x hx
    simp only [List.mem_map] at hx
    obtain ⟨j, _, rfl⟩ := hx
    exact normEntry_nonneg h3 n i j

/-- Witness for C2 at the concrete matrix [[1,3],[1/3,1]] with n = 2. -/
theorem c2_weights_witness :
    1 ≤ 2 ∧ matrixValid [[1, 3], [1/3, 1]] 2 = true ∧
    (∃ ws : List ℚ, (calculateAHP [[1, 3], [1/3, 1]] 2).weights = ws.map some ∧
      ws.sum = 1 ∧ ∀ w ∈ ws, 0 ≤ w) :=
  ⟨by norm_num, by decide,
   c2_weights_sum_one_and_nonneg [[1, 3], [1/3, 1]] 2 (by norm_num) (by decide) (by
     intro row hrow x hx
     simp only [List.mem_cons, List.not_mem_nil, or_false] at hrow
     rcases hrow with rfl | rfl <;>
       simp only [List.mem_cons, List.not_mem_nil, or_false] at hx <;>
       rcases hx with rfl | rfl <;> norm_num)⟩

/-- C3: every Matrix Builder operation preserves the comparison-matrix
invariant: initializeMatrix n satisfies it, resizing any invariant matrix
produces an invariant matrix (the shared top-left block carries over), and
setComparison with i < j < n and a Saaty-scale value produces an invariant
matrix again. -/
theorem c3_builder_preserves_invariant :
    (∀ n : ℕ, isComparisonMatrix (initializeMatrix n) n) ∧
    (∀ (m : List (List ℚ)) (p n : ℕ), isComparisonMatrix m p →
      isComparisonMatrix (resizeMatrix m n) n) ∧
    (∀ (m : List (List ℚ)) (n i j : ℕ) (v : ℚ), isComparisonMatrix m n →
      i < j → j < n → v ∈ saatyScale.map Prod.fst →
      isComparisonMatrix (setComparison m i j v) n) :=
  ⟨isComparisonMatrix_initializeMatrix,
   fun _ _ n h => isComparisonMatrix_resizeMatrix n h,
   fun _ _ _ _ _ h hij hj hv => isComparisonMatrix_setComparison h hij hj hv⟩

/-- Witness for C3: the invariant holds after initialization, after a
resize from 2 to 3, and after setting comparison (0,1) to 3. -/
theorem c3_builder_witness :
    isComparisonMatrix (initializeMatrix 2) 2 ∧
    isComparisonMatrix (resizeMatrix (initializeMatrix 2) 3) 3 ∧
    isComparisonMatrix (setComparison (initializeMatrix 2) 0 1 3) 2 :=
  ⟨c3_builder_preserves_invariant.1 2,
   c3_builder_preserves_invariant.2.1 (initializeMatrix 2) 2 3
     (c3_builder_preserves_invariant.1 2),
   c3_builder_preserves_invariant.2.2 (initializeMatrix 2) 2 0 1 3
     (c3_builder_preserves_invariant.1 2) (by norm_num) (by norm_num) (by simp [saatyScale])⟩

/-- Counterexample to C4: removing the item at index 0 of [X, Y, Z] leaves
[Y, Z], but the rebuilt matrix is the top-left 2×2 block of the previous
matrix (the X-vs-Y judgments), not the previous matrix with row 0 and
column 0 deleted (the Y-vs-Z judgments): the two disagree. -/
theorem c4_removal_counterexample :
    removeItem ["X", "Y", "Z"] "X" = ["Y", "Z"] ∧
    resizeMatrix [[1, 2, 3], [1/2, 1, 5], [1/3, 1/5, 1]] 2 = [[1, 2], [1/2, 1]] ∧
    deleteRowCol [[1, 2, 3], [1/2, 1, 5], [1/3, 1/5, 1]] 0 = [[1, 5], [1/5, 1]] ∧
    resizeMatrix [[1, 2, 3], [1/2, 1, 5], [1/3, 1/5, 1]] 2 ≠
      deleteRowCol [[1, 2, 3], [1/2, 1, 5], [1/3, 1/5, 1]] 0 := by
  have h1 : removeItem ["X", "Y", "Z"] "X" = ["Y", "Z"] := rfl
  have h2 : resizeMatrix [[1, 2, 3], [(1:ℚ)/2, 1, 5], [1/3, 1/5, 1]] 2 = [[1, 2], [1/2, 1]] := by
    norm_num [resizeMatrix, entry, show List.range 2 = [0, 1] from rfl]
  have h3 : deleteRowCol [[1, 2, 3], [(1:ℚ)/2, 1, 5], [1/3, 1/5, 1]] 0 = [[1, 5], [1/5, 1]] := by
    norm_num [deleteRowCol, List.eraseIdx]
  refine ⟨h1, h2, h3, ?_⟩
  rw [h2, h3]
  norm_num

/-- C4 amended: removing an item rebuilds the matrix as the top-left
(n-1)×(n-1) block of the previous matrix, carried over by index position;
this equals deleting row k and column k exactly when the removed index is
the last one, k = n-1. -/
theorem c4_removal_amended (m : List (List ℚ)) (n : ℕ)
    (hv : matrixValid m n = true) (hn : 1 ≤ n) :
    (∀ i j : ℕ, i < n - 1 → j < n - 1 →
      entry (resizeMatrix m (n - 1)) i j = entry m i j) ∧
    resizeMatrix m (n - 1) = deleteRowCol m (n - 1) := by
  have hlen := (matrixValid_iff.mp hv).1
  constructor
  · intro i j hi hj
    have hrl : (m.getD i []).length = n := rowlen_of_valid hv (by omega)
    rw [entry_resizeMatrix hi hj, if_pos ⟨by omega, by omega, by omega⟩]
  · exact resize_shrink_eq_deleteLast hv hn

/-- Witness for C4 amended at a concrete 3×3 comparison matrix. -/
theorem c4_removal_witness :
    matrixValid [[1, 2, 3], [1/2, 1, 5], [1/3, 1/5, 1]] 3 = true ∧ 1 ≤ 3 ∧
    ((∀ i j : ℕ, i < 3 - 1 → j < 3 - 1 →
      entry (resizeMatrix [[1, 2, 3], [1/2, 1, 5], [1/3, 1/5, 1]] (3 - 1)) i j =
        entry [[1, 2, 3], [1/2, 1, 5], [1/3, 1/5, 1]] i j) ∧
     resizeMatrix [[1, 2, 3], [1/2, 1, 5], [1/3, 1/5, 1]] (3 - 1) =
       deleteRowCol [[1, 2, 3], [1/2, 1, 5], [1/3, 1/5, 1]] (3 - 1)) :=
  ⟨by decide, by norm_num,
   c4_removal_amended [[1, 2, 3], [1/2, 1, 5], [1/3, 1/5, 1]] 3 (by decide) (by norm_num)⟩

/-- Counterexample to C5: with two criteria but a 1×1 criteria matrix,
calculateAHP reports the InvalidMatrix condition (all weights and the CR
are NaN), yet calculateOverallAHP does not halt: NaN > 0.10 is false, so
the gate passes, synthesis runs, and a ranked list with NaN scores is
produced. -/
theorem c5_invalid_matrix_counterexample :
    calculateAHP [[1]] 2 = ⟨[none, none], none, none⟩ ∧
    calculateOverallAHP
      ⟨["C1", "C2"], ["A", "B"], [[1]],
       [("C1", [[1, 1], [1, 1]]), ("C2", [[1, 1], [1, 1]])]⟩ =
      OverallOutcome.ranked [("A", none), ("B", none)] := by
  have hq : ("C2" == "C1") = false := rfl
  have hinv : calculateAHP [[1]] 2 = ⟨[none, none], none, none⟩ := by
    rw [calculateAHP_invalid (by norm_num) (by simp [matrixValid])]
    rfl
  refine ⟨hinv, ?_⟩
  have hl : altLoop
      ⟨["C1", "C2"], ["A", "B"], [[1]],
       [("C1", [[1, 1], [1, 1]]), ("C2", [[1, 1], [1, 1]])]⟩ ["C1", "C2"] =
      Except.ok [("C1", [some (1/2), some (1/2)]), ("C2", [some (1/2), some (1/2)])] := by
    simp only [altLoop, List.lookup]
    norm_num [calcAHP_ones, jsGt, hq]
  have hs : synthScores ["A", "B"] ["C1", "C2"] [none, none]
      [("C1", [some ((1:ℚ)/2), some (1/2)]), ("C2", [some (1/2), some (1/2)])] =
      [("A", none), ("B", none)] := by
    simp only [synthScores, List.enum, List.enumFrom, List.lookup, List.map, List.foldl]
    norm_num [optAdd, optMul, hq]
  have hsort : sortDesc [("A", (none : Option ℚ)), ("B", none)] = [("A", none), ("B", none)] := by
    simp [sortDesc, insertDesc, scoreGt]
  simp only [calculateOverallAHP]
  norm_num [hinv, hl, hs, hsort, jsGt]

/-- C5 amended: when the criteria matrix is structurally invalid,
computePriority reports InvalidMatrix (CR NaN); the gate does not fire on
NaN, so when every alternatives matrix is present, nonempty and passes its
gate, calculateOverallAHP proceeds through synthesis and produces a full
ranked list, one entry per alternative, with every score NaN — failure is
detectable only by inspecting the values. -/
theorem c5_invalid_matrix_amended (s : AppState)
    (hc : s.criteria ≠ []) (ha : s.alternatives ≠ [])
    (hn2 : 2 ≤ s.criteria.length)
    (hbad : ¬matrixValid s.criteriaComparisons s.criteria.length = true)
    (hm : ∀ c ∈ s.criteria, ∃ mtx, s.alternativeComparisons.lookup c = some mtx ∧ mtx ≠ [])
    (hok : ∀ c ∈ s.criteria, specRejects (altCR s c) = false) :
    (calculateAHP s.criteriaComparisons s.criteria.length).consistencyRatio = none ∧
    ∃ rs, calculateOverallAHP s = OverallOutcome.ranked rs ∧
      rs.length = s.alternatives.length ∧ ∀ p ∈ rs, p.2 = none := by
  have hinv := calculateAHP_invalid hn2 hbad
  have hc0 : ¬s.criteria.length = 0 := by simpa using hc
  have ha0 : ¬s.alternatives.length = 0 := by simpa using ha
  have hfnone : s.criteria.find? (fun c => specRejects (altCR s c)) = none :=
    List.find?_eq_none.mpr (fun x hx => by rw [hok x hx]; simp)
  have halt := (altLoop_eq s s.criteria hm).2 hfnone
  refine ⟨by rw [hinv], sortDesc (synthScores s.alternatives s.criteria
    (List.replicate s.criteria.length none)
    (s.criteria.map (fun c => (c, altWeightsOf s c)))), ?_, ?_, ?_⟩
  · simp only [calculateOverallAHP, hinv, if_neg hc0, if_neg ha0]
    rw [if_neg (by simp [jsGt]), halt]
  · rw [length_sortDesc, length_synthScores]
  · intro p hp
    exact synthScores_score_none hc _ p (mem_sortDesc hp)

/-- Witness for C5 amended at the concrete state of the counterexample. -/
theorem c5_invalid_matrix_witness :
    (calculateAHP [[1]] 2).consistencyRatio = none ∧
    ∃ rs, calculateOverallAHP
        ⟨["C1", "C2"], ["A", "B"], [[1]],
         [("C1", [[1, 1], [1, 1]]), ("C2", [[1, 1], [1, 1]])]⟩ =
        OverallOutcome.ranked rs ∧ rs.length = 2 ∧ ∀ p ∈ rs, p.2 = none := by
  have hok : ∀ c ∈ (["C1", "C2"] : List String),
      specRejects (altCR ⟨["C1", "C2"], ["A", "B"], [[1]],
        [("C1", [[1, 1], [1, 1]]), ("C2", [[1, 1], [1, 1]])]⟩ c) = false := by
    intro c hc
    have hzero : specRejects (some 0) = false := by
      simp only [specRejects]
      exact decide_eq_false (by norm_num)
    simp only [List.mem_cons, List.not_mem_nil, or_false] at hc
    rcases hc with rfl | rfl
    · have h1 : altCR ⟨["C1", "C2"], ["A", "B"], [[1]],
          [("C1", [[1, 1], [1, 1]]), ("C2", [[1, 1], [1, 1]])]⟩ "C1" = some 0 := by
        show (calculateAHP [[1, 1], [1, 1]] 2).consistencyRatio = some 0
        rw [calcAHP_ones]
      rw [h1, hzero]
    · have h2 : altCR ⟨["C1", "C2"], ["A", "B"], [[1]],
          [("C1", [[1, 1], [1, 1]]), ("C2", [[1, 1], [1, 1]])]⟩ "C2" = some 0 := by
        show (calculateAHP [[1, 1], [1, 1]] 2).consistencyRatio = some 0
        rw [calcAHP_ones]
      rw [h2, hzero]
  exact c5_invalid_matrix_amended
    ⟨["C1", "C2"], ["A", "B"], [[1]],
     [("C1", [[1, 1], [1, 1]]), ("C2", [[1, 1], [1, 1]])]⟩
    (by simp) (by simp) (by norm_num) (by decide)
    (by
      intro c hc
      simp only [List.mem_cons, List.not_mem_nil, or_false] at hc
      rcases hc with rfl | rfl
      · exact ⟨[[1, 1], [1, 1]], rfl, by simp⟩
      · exact ⟨[[1, 1], [1, 1]], rfl, by simp⟩)
    hok

/-- C6: whenever criteria and alternatives are nonempty and every
criterion has a nonempty alternatives matrix, calculateOverallAHP equals
the spec's Consistency Gate: checks run in item-set order (criteria matrix
first, then each criterion's alternatives matrix in criteria order), a
check is rejected exactly when its CR exceeds 0.10, the computation halts
at the first rejection reporting only that set's name with its CR rounded
to two decimals and produces no ranking, and when every check is accepted
the ranked results are produced. -/
theorem c6_consistency_gate_fail_fast (s : AppState)
    (hc : s.criteria ≠ []) (ha : s.alternatives ≠ [])
    (hm : ∀ c ∈ s.criteria, ∃ mtx, s.alternativeComparisons.lookup c = some mtx ∧ mtx ≠ []) :
    calculateOverallAHP s = consistencyGateSpec s := by
  have hc0 : ¬s.criteria.length = 0 := by simpa using hc
  have ha0 : ¬s.alternatives.length = 0 := by simpa using ha
  have halt := altLoop_eq s s.criteria hm
  simp only [calculateOverallAHP, consistencyGateSpec, gateChecks, if_neg hc0, if_neg ha0]
  by_cases hrej : specRejects
      (calculateAHP s.criteriaComparisons s.criteria.length).consistencyRatio = true
  · have hfind : List.find? (fun p => specRejects p.2)
        ((none, (calculateAHP s.criteriaComparisons s.criteria.length).consistencyRatio)
          :: s.criteria.map (fun c => ((some c : Option String), altCR s c))) =
        some (none, (calculateAHP s.criteriaComparisons s.criteria.length).consistencyRatio) :=
      List.find?_cons_of_pos _ hrej
    rw [if_pos (by rw [jsGt_eq_specRejects]; exact hrej), hfind]
  · have hfneg : List.find? (fun p => specRejects p.2)
        ((none, (calculateAHP s.criteriaComparisons s.criteria.length).consistencyRatio)
          :: s.criteria.map (fun c => ((some c : Option String), altCR s c))) =
        List.find? (fun p => specRejects p.2)
          (s.criteria.map (fun c => ((some c : Option String), altCR s c))) :=
      List.find?_cons_of_neg _ hrej
    rw [if_neg (by rw [jsGt_eq_specRejects]; exact hrej), hfneg, List.find?_map]
    have hcomp : s.criteria.find? ((fun p => specRejects p.2) ∘
        (fun c => ((some c : Option String), altCR s c))) =
        s.criteria.find? (fun c => specRejects (altCR s c)) := rfl
    rw [hcomp]
    cases hfind : s.criteria.find? (fun c => specRejects (altCR s c)) with
    | some c =>
      rw [halt.1 c hfind]
      rfl
    | none =>
      rw [halt.2 hfind]
      rfl

/-- Witness for C6 at the concrete end-to-end state. -/
theorem c6_gate_witness :
    calculateOverallAHP
      ⟨["Cost", "Quality"], ["A", "B"], [[1, 3], [1/3, 1]],
       [("Cost", [[1, 2], [1/2, 1]]), ("Quality", [[1, 1/2], [2, 1]])]⟩ =
    consistencyGateSpec
      ⟨["Cost", "Quality"], ["A", "B"], [[1, 3], [1/3, 1]],
       [("Cost", [[1, 2], [1/2, 1]]), ("Quality", [[1, 1/2], [2, 1]])]⟩ :=
  c6_consistency_gate_fail_fast _ (by simp) (by simp) (by
    intro c hc
    simp only [List.mem_cons, List.not_mem_nil, or_false] at hc
    rcases hc with rfl | rfl
    · exact ⟨[[1, 2], [1/2, 1]], rfl, by simp⟩
    · exact ⟨[[1, 1/2], [2, 1]], rfl, by simp⟩)

/-- C7: for every n ≥ 2, a matrix that is not exactly n×n makes
calculateAHP return a length-n all-NaN weight vector with NaN CR and NaN
lambdaMax; the function is total, so no exception is possible. -/
theorem c7_invalid_shape_nan_result (m : List (List ℚ)) (n : ℕ)
    (h2 : 2 ≤ n) (hbad : ¬matrixValid m n = true) :
    calculateAHP m n = ⟨List.replicate n none, none, none⟩ :=
  calculateAHP_invalid h2 hbad

/-- Witness for C7 at the 1×1 matrix declared as 2×2. -/
theorem c7_invalid_shape_witness :
    2 ≤ 2 ∧ ¬matrixValid [[1]] 2 = true ∧
    calculateAHP [[1]] 2 = ⟨List.replicate 2 none, none, none⟩ :=
  ⟨by norm_num, by decide, c7_invalid_shape_nan_result [[1]] 2 (by norm_num) (by decide)⟩

/-- C8: building a 2×2 matrix with entry (0,1) = 3 (and (1,0) = 1/3),
resizing to 3×3 and back to 2×2 restores the matrix exactly, in particular
entry (0,1) = 3 and entry (1,0) = 1/3. -/
theorem c8_resize_round_trip :
    resizeMatrix (resizeMatrix (setComparison (initializeMatrix 2) 0 1 3) 3) 2 =
      setComparison (initializeMatrix 2) 0 1 3 ∧
    entry (resizeMatrix (resizeMatrix (setComparison (initializeMatrix 2) 0 1 3) 3) 2) 0 1 = 3 ∧
    entry (resizeMatrix (resizeMatrix (setComparison (initializeMatrix 2) 0 1 3) 3) 2) 1 0
      = 1/3 := by
  have h2 : setComparison (initializeMatrix 2) 0 1 3 = [[1, 3], [1/3, 1]] := by
    norm_num [setComparison_init2]
  have h3 : resizeMatrix [[1, 3], [(1:ℚ)/3, 1]] 3 = [[1, 3, 1], [1/3, 1, 1], [1, 1, 1]] := by
    norm_num [resizeMatrix, show List.range 3 = [0, 1, 2] from rfl]
  have h4 : resizeMatrix [[1, 3, 1], [(1:ℚ)/3, 1, 1], [1, 1, 1]] 2 = [[1, 3], [1/3, 1]] := by
    norm_num [resizeMatrix, show List.range 2 = [0, 1] from rfl]
  rw [h2, h3, h4]
  norm_num [entry]

/-- C9: the CR is CI / RI[n-1] from the fixed table (0-based, so entries 0
and 1 cover n = 1 and n = 2 and are both 0); whenever the looked-up table
value is 0 the returned CR is exactly 0 regardless of CI, so every valid
2×2 matrix and every 1-element set gets CR = 0. -/
theorem c9_cr_from_ri_table :
    (RI.get? 0 = some 0 ∧ RI.get? 1 = some 0) ∧
    (∀ (m : List (List ℚ)) (n : ℕ), 2 ≤ n → matrixValid m n = true →
      ∀ r : ℚ, RI.get? (n - 1) = some r →
        (calculateAHP m n).consistencyRatio = some (if r = 0 then 0 else ciOf m n / r)) ∧
    (∀ m : List (List ℚ), matrixValid m 2 = true →
      (calculateAHP m 2).consistencyRatio = some 0) ∧
    (∀ m : List (List ℚ), (calculateAHP m 1).consistencyRatio = some 0) := by
  refine ⟨⟨rfl, rfl⟩, ?_, ?_, ?_⟩
  · intro m n h2 hv r hr
    rw [calculateAHP, if_neg (by omega : ¬n = 0), if_neg (by omega : ¬n = 1), if_pos hv]
    show crOf m n = some (if r = 0 then 0 else ciOf m n / r)
    rw [crOf, hr]
    by_cases h : r = 0
    · simp [h]
    · simp [h]
  · intro m hv
    rw [calculateAHP, if_neg (by norm_num), if_neg (by norm_num), if_pos hv]
    show crOf m 2 = some 0
    have hri : RI.get? 1 = some 0 := rfl
    rw [crOf, hri]
    simp
  · intro m
    rfl

/-- Witness for C9 at a 2×2 matrix with judgment value 9. -/
theorem c9_cr_witness :
    matrixValid [[1, 9], [1/9, 1]] 2 = true ∧
    (calculateAHP [[1, 9], [1/9, 1]] 2).consistencyRatio = some 0 :=
  ⟨by decide, c9_cr_from_ri_table.2.2.1 [[1, 9], [1/9, 1]] (by decide)⟩

/-- C10: calculateAHP is total and never divides by zero: for every input,
the checked variant in which each division is guarded by its divisor being
nonzero (a zero-sum column takes the 1/n fallback, a zero weight skips its
lambda-max term while the average still divides by n) completes and
returns exactly calculateAHP's result. -/
theorem c10_no_division_by_zero (m : List (List ℚ)) (n : ℕ) :
    calculateAHPChecked m n = some (calculateAHP m n) := by
  unfold calculateAHPChecked calculateAHP
  by_cases h0 : n = 0
  · rw [if_pos h0, if_pos h0]
  by_cases h1 : n = 1
  · rw [if_neg h0, if_neg h0, if_pos h1, if_pos h1]
  by_cases hv : matrixValid m n
  · rw [if_neg h0, if_neg h0, if_neg h1, if_neg h1, if_pos hv, if_pos hv]
    have hnQ : (n : ℚ) ≠ 0 := by exact_mod_cast h0
    have hws : (List.range n).mapM (fun i =>
        ((List.range n).mapM (fun j => normEntryChecked m n i j)).bind
          (fun row => safeDiv row.sum (n : ℚ))) = some (weightsOf m n) := by
      apply mapM_option_of_some
      intro i _
      rw [mapM_option_of_some _ (fun j => normEntry m n i j) _
        (fun j _ => normEntryChecked_eq h0 i j), Option.some_bind]
      unfold safeDiv weightAt
      rw [if_neg hnQ]
    rw [hws, Option.some_bind]
    have hterms : (List.range n).mapM (fun i =>
        if (weightsOf m n).getD i 0 = 0 then some 0
        else safeDiv (((List.range n).map
            (fun j => entry m i j * (weightsOf m n).getD j 0)).sum)
          ((weightsOf m n).getD i 0)) =
        some ((List.range n).map (fun i =>
          if weightAt m n i = 0 then 0 else weightedSumAt m n i / weightAt m n i)) := by
      apply mapM_option_of_some
      intro i hi
      have hiw : (weightsOf m n).getD i 0 = weightAt m n i :=
        getD_map_range _ _ (List.mem_range.mp hi)
      have hsum : ((List.range n).map (fun j => entry m i j * (weightsOf m n).getD j 0)).sum
          = weightedSumAt m n i := by
        unfold weightedSumAt
        congr 1
        apply List.map_congr_left
        intro j hj
        have hjw : (weightsOf m n).getD j 0 = weightAt m n j :=
          getD_map_range _ _ (List.mem_range.mp hj)
        rw [hjw]
      rw [hiw, hsum]
      by_cases hw : weightAt m n i = 0
      · rw [if_pos hw, if_pos hw]
      · rw [if_neg hw, if_neg hw, safeDiv, if_neg hw]
    rw [hterms, Option.some_bind]
    have hlm : safeDiv (((List.range n).map (fun i =>
        if weightAt m n i = 0 then 0 else weightedSumAt m n i / weightAt m n i)).sum) (n : ℚ)
        = some (lambdaMaxOf m n) := by
      unfold safeDiv lambdaMaxOf
      rw [if_neg hnQ]
    rw [hlm, Option.some_bind]
    have hn2 : 1 < n := by omega
    have hci : (if 1 < n then safeDiv (lambdaMaxOf m n - (n : ℚ)) ((n : ℚ) - 1) else some 0)
        = some (ciOf m n) := by
      unfold safeDiv ciOf
      rw [if_pos hn2, if_pos hn2, if_neg (by
        have h2Q : (2 : ℚ) ≤ (n : ℚ) := by exact_mod_cast hn2
        intro hcon
        nlinarith)]
    rw [hci, Option.some_bind]
    have hcr : (match RI.get? (n - 1) with
        | none => some (none : Option ℚ)
        | some r => if r = 0 then some (some (0 : ℚ))
                    else (safeDiv (ciOf m n) r).map some).bind
        (fun cr => some (⟨(weightsOf m n).map some, cr, some (lambdaMaxOf m n)⟩ : AHPResult))
        = some ⟨(weightsOf m n).map some, crOf m n, some (lambdaMaxOf m n)⟩ := by
      unfold crOf
      cases hri : RI.get? (n - 1) with
      | none => rfl
      | some r =>
        by_cases hr : r = 0
        · simp [hr]
        · simp [hr, safeDiv]
    exact hcr
  · rw [if_neg h0, if_neg h0, if_neg h1, if_neg h1, if_neg hv, if_neg hv]

end AHP
